import Mathlib

/-!
Verification of the RulesMCP core (`rules_mcp/registry.py` and the registry-facing
part of `rules_mcp/server.py`) against its natural-language specification.

The Python code is shallowly embedded: each Python function becomes an executable
Lean definition over an explicit record model.  Python strings are Lean `String`s,
but every string operation is implemented structurally over `List Char`
(`String.toList`) so that all definitions evaluate by kernel reduction:
`str.lower()` maps `Char.toLower`, `str.split()` is whitespace tokenization,
`needle in hay` is contiguous-sublist containment, and string comparison is the
lexicographic order on the character lists (Python compares by code point).
Python's float division in `learning_path` (`s / max_score`) is modelled exactly
over `ℚ`; on the integer scores involved the rational comparisons against
`0.6`/`0.3` agree with the IEEE-double comparisons the code performs.
-/

/-- The `edges` mapping of a record: the five edge kinds, each an ordered
sequence of target file identifiers (spec §3). -/
structure Edges where
  requires : List String := []
  required_by : List String := []
  feeds : List String := []
  fed_by : List String := []
  related : List String := []
deriving DecidableEq

/-- One rule record, as deserialized from a line of `register.jsonl` (spec §3).
Missing optional fields are represented by their defaults: the Python code reads
every field with `entry.get(key, default)` (or with a `None` default that is
only ever compared against non-empty strings, which is observably the same as
defaulting to `""`). -/
structure Entry where
  file : String := ""
  category : String := ""
  title : String := ""
  subtitle : String := ""
  tags : List String := []
  concepts : List String := []
  keywords : List String := []
  rules : List String := []
  banned : List String := []
  layer : Option Int := none
  refs : List String := []
  edges : Edges := {}
  has_examples : Bool := false
deriving DecidableEq

/-- Python `str.lower()` on the character list (ASCII case folding, which covers
every string the registry compares). -/
def lowerList (l : List Char) : List Char :=
  l.map Char.toLower

/-- Python `str.lower()` as a `String` operation. -/
def pyLower (s : String) : String :=
  String.mk (lowerList s.toList)

/-- Auxiliary for Python `str.split()`: walk the characters, accumulating the
current (reversed) token, emitting it at each whitespace run or at the end. -/
def splitWsAux : List Char → List Char → List String
  | [], acc => if acc.isEmpty then [] else [String.mk acc.reverse]
  | c :: cs, acc =>
    if c.isWhitespace then
      if acc.isEmpty then splitWsAux cs [] else String.mk acc.reverse :: splitWsAux cs []
    else splitWsAux cs (c :: acc)

/-- `query.lower().split()` from `Registry.search`: lower-case, then split on
whitespace runs, discarding empty tokens. -/
def pyTokens (query : String) : List String :=
  splitWsAux (lowerList query.toList) []

/-- Is `n` a (character-wise) prefix of `h`? Auxiliary for substring search. -/
def startsList : List Char → List Char → Bool
  | [], _ => true
  | _ :: _, [] => false
  | a :: as, b :: bs => (a == b) && startsList as bs

/-- Does `n` occur contiguously anywhere in the list? -/
def subAt (n : List Char) : List Char → Bool
  | [] => startsList n []
  | c :: cs => startsList n (c :: cs) || subAt n cs

/-- Python's `needle in hay` on strings: contiguous substring containment. -/
def pyIn (needle hay : String) : Bool :=
  subAt needle.toList hay.toList

/-- `_build_searchable(entry)` (registry.py 140-152): the lower-cased searchable
field texts, in source order — title, subtitle, tags, concepts, keywords,
category.  The file path is not among them. -/
def buildSearchable (e : Entry) : List String :=
  pyLower e.title :: pyLower e.subtitle ::
    (e.tags.map pyLower ++ e.concepts.map pyLower ++ e.keywords.map pyLower
      ++ [pyLower e.category])

/-- `_score_entry(entry, tokens)` (registry.py 128-137): for each token, scan the
searchable fields and add 1 at the first field that contains the token (the
inner `for`/`break`), i.e. add 1 when some field contains it. -/
def scoreEntry (e : Entry) (tokens : List String) : Nat :=
  tokens.foldl
    (fun score token =>
      if (buildSearchable e).any (fun f => pyIn token f) then score + 1 else score)
    0

/-- Python truthiness of an `Optional[str]`: `None` and `""` are falsy. -/
def pyTruthy : Option String → Bool
  | none => false
  | some s => !s.toList.isEmpty

/-- The `category` pre-filter of `Registry.search` (registry.py 32-33): an entry
is skipped iff `category` is truthy and differs from the entry's category. -/
def keepByCategory (category : Option String) (e : Entry) : Bool :=
  !(pyTruthy category && !(e.category == category.getD ""))

/-- Python `lst[:stop]` for an `int` stop: a nonnegative stop takes that many
elements from the front; a negative stop drops `|stop|` elements from the end. -/
def pySliceTo (l : List α) (stop : Int) : List α :=
  if 0 ≤ stop then l.take stop.toNat else l.take (l.length - (-stop).toNat)

/-- The descending-score comparison used by `scored.sort(key=..., reverse=True)`
(registry.py 38): `a` may stay before `b` iff `a`'s score is ≥ `b`'s.  With a
stable sort this is exactly Python's stable descending sort. -/
def scoreGeRel (tokens : List String) (a b : Entry) : Prop :=
  scoreEntry b tokens ≤ scoreEntry a tokens

instance (tokens : List String) : DecidableRel (scoreGeRel tokens) :=
  fun a b => inferInstanceAs (Decidable (_ ≤ _))

/-- The entries that survive the scoring loop of `Registry.search`
(registry.py 30-36), in load order: category filter passed and score positive. -/
def searchEligible (entries : List Entry) (query : String) (category : Option String) :
    List Entry :=
  entries.filter
    (fun e => keepByCategory category e && decide (0 < scoreEntry e (pyTokens query)))

/-- `Registry.search(query, category, limit)` (registry.py 24-39): tokenize,
return `[]` on no tokens, keep positively scoring entries of the (optionally
category-filtered) list, stable-sort by score descending, truncate with
`scored[:limit]`. -/
def search (entries : List Entry) (query : String) (category : Option String)
    (limit : Int) : List Entry :=
  let tokens := pyTokens query
  if tokens.isEmpty then []
  else
    pySliceTo
      (List.insertionSort (scoreGeRel tokens) (searchEligible entries query category))
      limit

/-- `Registry.list_files(category)` (registry.py 41-45): filter by exact
category match when `category` is truthy, otherwise return every entry. -/
def list_files (entries : List Entry) (category : Option String) : List Entry :=
  if pyTruthy category then
    entries.filter (fun e => e.category == category.getD "")
  else entries

/-- Modelled from the spec: `find_by_file` is called by `server.py`
(`get_related`, line 221/245) but no definition appears in the provided
`registry.py`; spec §4.3 specifies it as the exact match on `file`, returning
`None` when no record matches. -/
def find_by_file (entries : List Entry) (f : String) : Option Entry :=
  entries.find? (fun e => e.file == f)

/-! ### Learning-path planner (`Registry.learning_path`, registry.py 51-125)

The Python code iterates over the *set* `relevant` in two places whose final
result could conceivably depend on the set's hash-based iteration order: the
`referenced_by` counting loop (a commutative sum, so order-free) and
`sorted(relevant, key=..., reverse=True)` (stable, so tie order follows
iteration order).  The embedding therefore takes the iteration order as an
explicit list parameter `order`; `learning_path` instantiates it with a
canonical duplicate-free listing, and the determinism theorem shows every
permutation of that listing produces the same output. -/

/-- `include_cats = lang_set | {"global", "project-files"}` (registry.py 62-64),
as a list used only through membership. -/
def includeCats (languages : List String) : List String :=
  languages.map pyLower ++ ["global", "project-files"]

/-- The selection test of the `relevant` loop (registry.py 68-72):
`e.get("category", "").lower() in include_cats`. -/
def catIncluded (languages : List String) (e : Entry) : Bool :=
  (includeCats languages).contains (pyLower e.category)

/-- A canonical listing of the set `relevant` (registry.py 68-72): the `file`
fields of the selected entries, one occurrence each. -/
def relevantFiles (entries : List Entry) (languages : List String) : List String :=
  ((entries.filter (catIncluded languages)).map (fun e => e.file)).dedup

/-- `by_file = {e["file"]: e for e in self.entries}` (registry.py 65): a Python
dict comprehension keeps the last entry for a duplicated key. -/
def byFile (entries : List Entry) (f : String) : Option Entry :=
  entries.reverse.find? (fun e => e.file == f)

/-- `cat = f.split("/")[0] if "/" in f else ""` (registry.py 78). -/
def fileCat (f : String) : String :=
  if f.toList.contains '/' then String.mk (f.toList.takeWhile (fun c => !(c == '/')))
  else ""

/-- `full_ref = f"{cat}/{ref}" if "/" not in ref else ref` (registry.py 80). -/
def qualifyRef (f ref : String) : String :=
  if ref.toList.contains '/' then ref
  else String.mk ((fileCat f).toList ++ '/' :: ref.toList)

/-- How many of the `refs` of `by_file[f]` qualify to the target `g`
(inner loop of registry.py 79-82). -/
def refsTo (entries : List Entry) (f g : String) : Nat :=
  match byFile entries f with
  | none => 0
  | some e => (e.refs.filter (fun r => qualifyRef f r == g)).length

/-- The final value `referenced_by.get(g, 0)` after the counting loop of
registry.py 74-82: each relevant `f` contributes one count per ref that
qualifies to `g`, guarded by `full_ref in relevant`.  The loop only adds, so its
final state is this order-independent sum over the iteration order. -/
def referencedByFrom (entries : List Entry) (order : List String) (g : String) : Nat :=
  if order.contains g then (order.map (fun f => refsTo entries f g)).sum else 0

/-- `scores[f]` (registry.py 85-92):
`referenced_by * 3 + len(rules) + len(banned) + has_examples`.  In the code
`by_file[f]` always succeeds for a relevant `f`; a missing entry contributes
nothing beyond the reference score. -/
def scoreFile (entries : List Entry) (order : List String) (f : String) : Nat :=
  match byFile entries f with
  | none => referencedByFrom entries order f * 3
  | some e =>
      referencedByFrom entries order f * 3 + e.rules.length + e.banned.length
        + (if e.has_examples then 1 else 0)

/-- Descending-score comparison of `sorted(relevant, key=..., reverse=True)`
(registry.py 95). -/
def scoreFileGeRel (entries : List Entry) (order : List String) (a b : String) : Prop :=
  scoreFile entries order b ≤ scoreFile entries order a

instance (entries : List Entry) (order : List String) :
    DecidableRel (scoreFileGeRel entries order) :=
  fun a b => inferInstanceAs (Decidable (_ ≤ _))

instance (entries : List Entry) (order : List String) :
    IsTotal String (scoreFileGeRel entries order) :=
  ⟨fun a b => Nat.le_total _ _⟩

instance (entries : List Entry) (order : List String) :
    IsTrans String (scoreFileGeRel entries order) :=
  ⟨fun _ _ _ hab hbc => le_trans hbc hab⟩

/-- `sorted_files` (registry.py 95): the iteration order of `relevant`, stably
sorted by score descending. -/
def sortedFiles (entries : List Entry) (order : List String) : List String :=
  List.insertionSort (scoreFileGeRel entries order) order

/-- `ratio = s / max_score if max_score > 0 else 0` (registry.py 106), the float
division modelled exactly over `ℚ`. -/
def ratioQ (s m : Nat) : ℚ :=
  if 0 < m then (s : ℚ) / (m : ℚ) else 0

/-- The bucket chain of registry.py 107-114: `>= 0.6` → 0, `>= 0.3` → 1,
`> 0` → 2, else 3. -/
def bucketIdx (s m : Nat) : Nat :=
  if (3 : ℚ)/5 ≤ ratioQ s m then 0
  else if (3 : ℚ)/10 ≤ ratioQ s m then 1
  else if 0 < ratioQ s m then 2
  else 3

/-- `bucketIdx` with the rational comparisons cleared of denominators, used to
evaluate closed instances (the `ℚ` division of `ratioQ` is not
kernel-reducible). -/
def bucketIdxN (s m : Nat) : Nat :=
  if 0 < m then
    if 3 * m ≤ 5 * s then 0
    else if 3 * m ≤ 10 * s then 1
    else if 0 < s then 2
    else 3
  else 3

/-- The four buckets in append order (registry.py 100-114), parameterized by the
bucket-choice function: bucket `j` collects, in `sorted_files` order, the
entries whose score ratio lands in bucket `j`. -/
def rawLayersWith (bucket : Nat → Nat → Nat) (entries : List Entry)
    (order : List String) : List (List Entry) :=
  let sf := sortedFiles entries order
  let maxS := scoreFile entries order (sf.headD "")
  [0, 1, 2, 3].map (fun j =>
    sf.filterMap (fun f =>
      match byFile entries f with
      | none => none
      | some e =>
          if bucket (scoreFile entries order f) maxS = j then some e else none))

/-- The within-layer ordering `sorted(layer, key=lambda e: e.get("file", ""))`
(registry.py 117-121): stable ascending sort on the file key. -/
def fileLeRel (a b : Entry) : Prop :=
  a.file.toList ≤ b.file.toList

instance : DecidableRel fileLeRel :=
  fun a b => inferInstanceAs (Decidable (_ ≤ _))

instance : IsTotal Entry fileLeRel :=
  ⟨fun a b => le_total _ _⟩

instance : IsTrans Entry fileLeRel :=
  ⟨fun _ _ _ hab hbc => le_trans hab hbc⟩

/-- `sorted(layer, key=...)` for one layer. -/
def sortLayer (l : List Entry) : List Entry :=
  List.insertionSort fileLeRel l

/-- `[sorted(layer, ...) for layer in layers if layer]` (registry.py 117-121):
drop empty buckets, sort each survivor by file. -/
def finalLayersWith (bucket : Nat → Nat → Nat) (entries : List Entry)
    (order : List String) : List (List Entry) :=
  ((rawLayersWith bucket entries order).filter (fun l => !l.isEmpty)).map sortLayer

/-- `Registry.learning_path` from the computed iteration order on: the
`if not sorted_files: return []` guard (registry.py 96-97), the layer
construction, and the `phase` slicing (registry.py 123-125): an in-range
1-based `phase` selects that single layer, any other `phase` falls through and
returns all layers. -/
def learningPathWith (bucket : Nat → Nat → Nat) (entries : List Entry)
    (order : List String) (phase : Option Int) : List (List Entry) :=
  if (sortedFiles entries order).isEmpty then []
  else
    let layers := finalLayersWith bucket entries order
    match phase with
    | some p =>
        if 1 ≤ p ∧ p ≤ (layers.length : Int) then [layers.getD (p - 1).toNat []]
        else layers
    | none => layers

/-- `Registry.learning_path(languages, phase)` (registry.py 51-125), with the
canonical iteration order for the set `relevant`. -/
def learning_path (entries : List Entry) (languages : List String)
    (phase : Option Int) : List (List Entry) :=
  learningPathWith bucketIdx entries (relevantFiles entries languages) phase

/-! ### Record Store load (`Registry.load`, registry.py 14-22)

`load` first clears `self.entries`, then walks the source line by line,
stripping, skipping blanks, and appending `json.loads(line)`.  JSON decoding is
abstracted as a `parse` function (`none` models a `json.JSONDecodeError`); the
walk is otherwise a direct transcription, and its result is the registry's
entry list when the loop finishes or when the exception aborts it. -/

/-- Python `str.strip()`: drop whitespace from both ends. -/
def pyStrip (s : String) : String :=
  String.mk
    (((s.toList.dropWhile Char.isWhitespace).reverse.dropWhile Char.isWhitespace).reverse)

/-- The line loop of `Registry.load` (registry.py 18-22), carrying the list
built so far: returns the final entry list together with the stripped text of
the malformed line, if any. -/
def loadAux (parse : String → Option Entry) (acc : List Entry) :
    List String → List Entry × Option String
  | [] => (acc, none)
  | l :: ls =>
    let s := pyStrip l
    if s.toList.isEmpty then loadAux parse acc ls
    else
      match parse s with
      | some e => loadAux parse (acc ++ [e]) ls
      | none => (acc, some s)

/-- `Registry.load` from the cleared list on: the state of `self.entries` after
the call, plus the offending line on failure. -/
def loadRun (parse : String → Option Entry) (lines : List String) :
    List Entry × Option String :=
  loadAux parse [] lines

/-- The registry's entry list after a `load` call that started from the
previously loaded snapshot `_prev`: the code executes `self.entries = []`
before reading any line, so the prior snapshot is discarded unconditionally
(registry.py 17). -/
def registryAfterLoad (_prev : List Entry) (parse : String → Option Entry)
    (lines : List String) : List Entry :=
  (loadRun parse lines).1

/-! ### Edge graph accessor (`get_related`, server.py 211-250)

The tool renders markdown; the embedding keeps the structured content it
renders — which outcome occurred, and for each edge kind with targets the
resolved `(file, title)` pairs — and drops only the surrounding text. -/

/-- The fixed edge-kind keys, in the iteration order of the `labels` dict
(server.py 231-239). -/
def edgeKinds : List String :=
  ["requires", "required_by", "feeds", "fed_by", "related"]

/-- `entry.get("edges", {}).get(k, [])` for the five known kinds. -/
def edgeGet (e : Entry) (k : String) : List String :=
  if k == "requires" then e.edges.requires
  else if k == "required_by" then e.edges.required_by
  else if k == "feeds" then e.edges.feeds
  else if k == "fed_by" then e.edges.fed_by
  else if k == "related" then e.edges.related
  else []

/-- Outcome of `get_related`: the record is missing, it has no edges at all, or
the per-kind resolved targets (for the kinds with a non-empty target list, in
`edgeKinds` order). -/
inductive RelatedResult where
  | notFound : RelatedResult
  | noEdges : RelatedResult
  | resolved : List (String × List (String × String)) → RelatedResult
deriving DecidableEq

/-- `target_entry.get("title", "") if target_entry else "(not found)"`
(server.py 245-246). -/
def resolveTitle (entries : List Entry) (target : String) : String :=
  match find_by_file entries target with
  | some e => e.title
  | none => "(not found)"

/-- `get_related(file)` (server.py 211-250): `NotFound` when the file has no
record, the no-edges answer when every kind is empty (server.py 226), and
otherwise, per non-empty kind in `labels` order, the targets paired with their
resolved titles. -/
def get_related (entries : List Entry) (file : String) : RelatedResult :=
  match find_by_file entries file with
  | none => RelatedResult.notFound
  | some e =>
    if edgeKinds.all (fun k => (edgeGet e k).isEmpty) then RelatedResult.noEdges
    else
      RelatedResult.resolved
        ((edgeKinds.filter (fun k => !(edgeGet e k).isEmpty)).map
          (fun k => (k, (edgeGet e k).map (fun t => (t, resolveTitle entries t)))))


/-! ### Derived notions and concrete registries used by the theorems -/

/-- The stripped non-blank lines of a source, in order: exactly the lines on
which `Registry.load` attempts `json.loads`. -/
def nonBlankStripped (lines : List String) : List String :=
  (lines.map pyStrip).filter (fun s => !s.toList.isEmpty)

/-- A record carrying the tag `"io"`. -/
def entIo : Entry := { file := "global/io.md", tags := ["io"] }

/-- A record carrying the tag `"ioerror"`. -/
def entIoerror : Entry := { file := "global/ioerror.md", tags := ["ioerror"] }

/-- Two records matching the query `"alpha"` equally. -/
def entAlphaA : Entry := { file := "a.md", tags := ["alpha"] }

/-- See `entAlphaA`. -/
def entAlphaB : Entry := { file := "b.md", tags := ["alpha"] }

/-- The `learning_path` example records of spec §8. -/
def exA : Entry := { file := "python/a.md", category := "python", layer := some 1 }

/-- See `exA`. -/
def exB : Entry := { file := "python/b.md", category := "python", layer := some 3 }

/-- See `exA`. -/
def exX : Entry := { file := "global/x.md", category := "global", layer := some 1 }

/-- The registry of the spec §8 `learning_path` example. -/
def exPyEntries : List Entry := [exA, exB, exX]

/-- A rust record with one RULE marker (score 1). -/
def exR1 : Entry := { file := "rust/a.md", category := "rust", rules := ["r"] }

/-- A rust record with score 0. -/
def exR2 : Entry := { file := "rust/b.md", category := "rust" }

/-- A record whose `requires` edge points at a file with no record. -/
def exTypes : Entry :=
  { file := "python/types.md", edges := { requires := ["python/naming.md"] } }

/-! ### Evaluation lemmas -/

theorem bucketIdx_eq (s m : Nat) : bucketIdx s m = bucketIdxN s m := by
  simp only [bucketIdx, bucketIdxN, ratioQ]
  by_cases hm : 0 < m
  · have hmQ : (0 : ℚ) < (m : ℚ) := by exact_mod_cast hm
    have h1 : ((3 : ℚ)/5 ≤ (s : ℚ)/(m : ℚ)) ↔ 3 * m ≤ 5 * s := by
      rw [div_le_div_iff₀ (by norm_num) hmQ,
        show ((s : ℚ) * 5 = ((5 * s : ℕ) : ℚ)) by push_cast; ring,
        show ((3 : ℚ) * (m : ℚ) = ((3 * m : ℕ) : ℚ)) by push_cast; ring]
      exact Nat.cast_le
    have h2 : ((3 : ℚ)/10 ≤ (s : ℚ)/(m : ℚ)) ↔ 3 * m ≤ 10 * s := by
      rw [div_le_div_iff₀ (by norm_num) hmQ,
        show ((s : ℚ) * 10 = ((10 * s : ℕ) : ℚ)) by push_cast; ring,
        show ((3 : ℚ) * (m : ℚ) = ((3 * m : ℕ) : ℚ)) by push_cast; ring]
      exact Nat.cast_le
    have h3 : ((0 : ℚ) < (s : ℚ)/(m : ℚ)) ↔ 0 < s := by
      rw [lt_div_iff₀ hmQ, zero_mul]
      exact_mod_cast Iff.rfl
    simp only [hm, if_true, if_pos hm, h1, h2, h3]
  · simp only [hm, if_false, if_neg hm]
    norm_num

theorem learning_path_eval (entries : List Entry) (languages : List String)
    (phase : Option Int) :
    learning_path entries languages phase
      = learningPathWith bucketIdxN entries (relevantFiles entries languages) phase := by
  unfold learning_path
  rw [show bucketIdx = bucketIdxN from funext (fun s => funext (fun m => bucketIdx_eq s m))]


/-! ### Helper lemmas -/

theorem scoreEntry_eq_countP (e : Entry) (tokens : List String) :
    scoreEntry e tokens
      = tokens.countP (fun t => (buildSearchable e).any (fun f => pyIn t f)) := by
  have h : ∀ (ts : List String) (n : Nat),
      ts.foldl
          (fun score token =>
            if (buildSearchable e).any (fun f => pyIn token f) then score + 1 else score)
          n
        = n + ts.countP (fun t => (buildSearchable e).any (fun f => pyIn t f)) := by
    intro ts
    induction ts with
    | nil => intro n; simp
    | cons t ts ih =>
        intro n
        simp only [List.foldl_cons, List.countP_cons, ih]
        by_cases hp : (buildSearchable e).any (fun f => pyIn t f) = true <;>
          simp [hp] <;> omega
  unfold scoreEntry
  rw [h tokens 0, Nat.zero_add]

theorem toList_eq_nil_iff (s : String) : s.toList = [] ↔ s = "" := by
  cases s with
  | mk data =>
      constructor
      · intro h
        simp only [String.toList] at h
        simp [h]
      · intro h
        rw [h]
        decide

/-! ### C2 — search scoring -/

/-- C2 counterexample: a record with tag `"io"` scores 0 for the query
`"ioerror"` and is not returned, contradicting the claimed weighted
bidirectional containment (under which the tag `"io"`, being a substring of the
token `"ioerror"`, would contribute weight 2 and the record would be
returned). -/
theorem C2_counterexample :
    scoreEntry entIo ["ioerror"] = 0 ∧ search [entIo] "ioerror" none 10 = [] := by
  decide

/-- C2 (amended): a record's score for a token list is the number of tokens
that are a substring of at least one lower-cased searchable field (title,
subtitle, tags, concepts, keywords, category — the file path is not searched),
with no field weights; matching is one-directional, so a record with tag
`"ioerror"` is returned for query `"io"` while a record with tag `"io"` is not
returned for query `"ioerror"`. -/
theorem C2_theorem :
    (∀ (e : Entry) (tokens : List String),
        scoreEntry e tokens
          = tokens.countP (fun t => (buildSearchable e).any (fun f => pyIn t f)))
    ∧ search [entIoerror] "io" none 10 = [entIoerror]
    ∧ search [entIo] "ioerror" none 10 = [] :=
  ⟨fun e tokens => scoreEntry_eq_countP e tokens, by decide, by decide⟩

/-! ### C7 — list_files and category scoping -/

/-- C7 counterexample: `list_files` with the empty-string category returns a
record whose category is `"python"`, not only the records of category `""` —
the empty string is falsy in Python, so no filtering happens at all. -/
theorem C7_counterexample :
    list_files [exA] (some "") = [exA] ∧ exA.category ≠ "" := by
  decide

/-- C7 (amended): `list_files` filters by exact category equality only when the
argument is a non-empty string; both `None` and the empty string `""` return
every record unfiltered.  For a non-empty category argument the result contains
only records of exactly that category, so records with category `""` are
excluded from every category-scoped query for a different category. -/
theorem C7_theorem (entries : List Entry) (s : String) :
    (s ≠ "" → list_files entries (some s) = entries.filter (fun e => e.category == s))
    ∧ list_files entries (some "") = entries
    ∧ list_files entries none = entries
    ∧ (∀ e, s ≠ "" → e ∈ list_files entries (some s) → e.category = s) := by
  have htr : ∀ t : String, t ≠ "" → pyTruthy (some t) = true := by
    intro t ht
    have h1 : t.toList ≠ [] := fun h => ht ((toList_eq_nil_iff t).mp h)
    have h2 : t.toList.isEmpty = false := by
      cases hc : t.toList with
      | nil => exact absurd hc h1
      | cons a l => rfl
    show (!t.toList.isEmpty) = true
    rw [h2]
    rfl
  refine ⟨?_, ?_, ?_, ?_⟩
  · intro hs
    simp [list_files, htr s hs]
  · simp [list_files, pyTruthy]
  · simp [list_files, pyTruthy]
  · intro e hs he
    rw [list_files, if_pos (htr s hs)] at he
    have := (List.mem_filter.mp he).2
    simpa using this

/-! ### C3 — find_by_file -/

/-- C3: `find_by_file` returns a record exactly when one with the requested
`file` exists — any returned record is a member with that exact `file`, `none`
is returned precisely when no member matches, and when a matching member exists
some matching record is returned.  (`find_by_file` itself is modelled from
spec §4.3; its definition is absent from the provided source, which only calls
it.) -/
theorem C3_theorem (entries : List Entry) (f : String) :
    (∀ e, find_by_file entries f = some e → e ∈ entries ∧ e.file = f)
    ∧ (find_by_file entries f = none → ∀ e ∈ entries, e.file ≠ f)
    ∧ ((∃ e ∈ entries, e.file = f) → ∃ e, find_by_file entries f = some e ∧ e.file = f) := by
  refine ⟨?_, ?_, ?_⟩
  · intro e he
    refine ⟨List.mem_of_find?_eq_some he, ?_⟩
    have := List.find?_some he
    simpa using this
  · intro hn e hmem
    have := List.find?_eq_none.mp hn e hmem
    simpa using this
  · rintro ⟨e, hmem, hf⟩
    have hsome : (find_by_file entries f).isSome := by
      rw [find_by_file, List.find?_isSome]
      exact ⟨e, hmem, by simpa using hf⟩
    rcases Option.isSome_iff_exists.mp hsome with ⟨e', he'⟩
    refine ⟨e', he', ?_⟩
    have := List.find?_some he'
    simpa using this

/-- C3 witness: the three directions of `C3_theorem` discharged on a concrete
registry. -/
theorem C3_witness :
    (exA ∈ [exA, exB] ∧ exA.file = "python/a.md")
    ∧ (∀ e ∈ [exA, exB], e.file ≠ "zzz")
    ∧ (∃ e, find_by_file [exA, exB] "python/a.md" = some e ∧ e.file = "python/a.md") :=
  ⟨(C3_theorem [exA, exB] "python/a.md").1 exA (by decide),
   (C3_theorem [exA, exB] "zzz").2.1 (by decide),
   (C3_theorem [exA, exB] "python/a.md").2.2 ⟨exA, by decide, by decide⟩⟩

/-- C7 witness: `C7_theorem` discharged on a concrete registry with a non-empty
category argument. -/
theorem C7_witness :
    list_files [exA, exX] (some "python")
        = [exA, exX].filter (fun e => e.category == "python")
    ∧ exA.category = "python" :=
  ⟨(C7_theorem [exA, exX] "python").1 (by decide),
   (C7_theorem [exA, exX] "python").2.2.2 exA (by decide) (by decide)⟩

/-! ### C6 — the limit parameter of search -/

/-- C6 counterexample: with two records matching `"alpha"` and `limit = -1`,
`scored[:limit]` drops only the last element, so the result is non-empty —
the claim that every `limit ≤ 0` yields an empty result fails, as does
"length at most limit". -/
theorem C6_counterexample :
    search [entAlphaA, entAlphaB] "alpha" none (-1) = [entAlphaA]
    ∧ search [entAlphaA, entAlphaB] "alpha" none (-1) ≠ [] := by
  decide

/-- C6 (amended): for `limit ≥ 0` the result length never exceeds `limit`, and
`limit = 0` yields an empty result; a negative `limit`, however, follows Python
slice semantics and returns all but the last `|limit|` scored records, which
is non-empty whenever more than `|limit|` records score positively. -/
theorem C6_theorem (entries : List Entry) (q : String) (c : Option String)
    (limit : Int) :
    (0 ≤ limit → ((search entries q c limit).length : Int) ≤ limit)
    ∧ search entries q c 0 = []
    ∧ (limit < 0 →
        (search entries q c limit).length
          = (searchEligible entries q c).length - (-limit).toNat) := by
  by_cases ht : (pyTokens q).isEmpty
  · have hs : ∀ lim : Int, search entries q c lim = [] := by
      intro lim
      simp [search, ht]
    have h0 : pyTokens q = [] := List.isEmpty_iff.mp ht
    have he : searchEligible entries q c = [] := by
      simp [searchEligible, h0, scoreEntry]
    refine ⟨?_, hs 0, ?_⟩
    · intro hlim
      rw [hs]
      simpa using hlim
    · intro hneg
      rw [hs, he]
      simp
  · have hs : ∀ lim : Int,
        search entries q c lim
          = pySliceTo
              (List.insertionSort (scoreGeRel (pyTokens q)) (searchEligible entries q c))
              lim := by
      intro lim
      simp [search, ht]
    have hlen :
        (List.insertionSort (scoreGeRel (pyTokens q)) (searchEligible entries q c)).length
          = (searchEligible entries q c).length :=
      (List.perm_insertionSort _ _).length_eq
    refine ⟨?_, ?_, ?_⟩
    · intro hlim
      rw [hs, pySliceTo, if_pos hlim]
      have hle : ((List.insertionSort (scoreGeRel (pyTokens q))
          (searchEligible entries q c)).take limit.toNat).length ≤ limit.toNat := by
        rw [List.length_take]
        exact min_le_left _ _
      calc (((List.insertionSort (scoreGeRel (pyTokens q))
              (searchEligible entries q c)).take limit.toNat).length : Int)
          ≤ (limit.toNat : Int) := by exact_mod_cast hle
        _ = limit := Int.toNat_of_nonneg hlim
    · rw [hs, pySliceTo, if_pos le_rfl]
      simp
    · intro hneg
      rw [hs, pySliceTo, if_neg (not_le.mpr hneg), List.length_take, hlen]
      exact min_eq_left (Nat.sub_le _ _)

/-- C6 witness: both live branches of `C6_theorem` discharged on a concrete
registry. -/
theorem C6_witness :
    ((search [entAlphaA, entAlphaB] "alpha" none 5).length : Int) ≤ 5
    ∧ (search [entAlphaA, entAlphaB] "alpha" none (-1)).length = 1 :=
  ⟨(C6_theorem [entAlphaA, entAlphaB] "alpha" none 5).1 (by decide),
   ((C6_theorem [entAlphaA, entAlphaB] "alpha" none (-1)).2.2 (by decide)).trans
     (by decide)⟩

/-! ### C5 — load atomicity -/

theorem loadAux_spec (parse : String → Option Entry) :
    ∀ (lines : List String) (acc : List Entry),
      ((loadAux parse acc lines).2 = none →
          (loadAux parse acc lines).1 = acc ++ (nonBlankStripped lines).filterMap parse)
      ∧ (∀ s, (loadAux parse acc lines).2 = some s →
          ∃ pre post, nonBlankStripped lines = pre ++ s :: post
            ∧ (∀ x ∈ pre, (parse x).isSome)
            ∧ parse s = none
            ∧ (loadAux parse acc lines).1 = acc ++ pre.filterMap parse) := by
  intro lines
  induction lines with
  | nil =>
      intro acc
      refine ⟨fun _ => by simp [loadAux, nonBlankStripped], fun s hs => ?_⟩
      simp [loadAux] at hs
  | cons l ls ih =>
      intro acc
      by_cases hb : (pyStrip l).toList.isEmpty
      · have hbl : (pyStrip l).data = [] := by simpa using hb
        have hnb : nonBlankStripped (l :: ls) = nonBlankStripped ls := by
          simp [nonBlankStripped, hbl]
        have hstep : loadAux parse acc (l :: ls) = loadAux parse acc ls := by
          simp [loadAux, hbl]
        rw [hstep, hnb]
        exact ih acc
      · have hbl : ¬ (pyStrip l).data = [] := by simpa using hb
        have hnb : nonBlankStripped (l :: ls) = pyStrip l :: nonBlankStripped ls := by
          simp [nonBlankStripped, hbl]
        cases hp : parse (pyStrip l) with
        | some e =>
            have hstep : loadAux parse acc (l :: ls) = loadAux parse (acc ++ [e]) ls := by
              simp [loadAux, hbl, hp]
            rw [hstep, hnb]
            refine ⟨?_, ?_⟩
            · intro hnone
              rw [(ih (acc ++ [e])).1 hnone]
              simp [List.filterMap_cons_some hp]
            · intro s hs
              rcases (ih (acc ++ [e])).2 s hs with ⟨pre, post, hsplit, hpre, hnone, hres⟩
              refine ⟨pyStrip l :: pre, post, by rw [hsplit]; rfl, ?_, hnone, ?_⟩
              · intro x hx
                rcases List.mem_cons.mp hx with hx | hx
                · rw [hx, hp]; rfl
                · exact hpre x hx
              · rw [hres]
                simp [List.filterMap_cons_some hp]
        | none =>
            have hstep : loadAux parse acc (l :: ls) = (acc, some (pyStrip l)) := by
              simp [loadAux, hbl, hp]
            rw [hstep, hnb]
            refine ⟨fun hnone => by simp at hnone, ?_⟩
            intro s hs
            simp only at hs
            rcases Option.some.inj hs with rfl
            exact ⟨[], nonBlankStripped ls, rfl, by intro x hx; simp at hx, hp, by simp⟩

/-- C5 counterexample: with the previously loaded snapshot `[exA]`, a source
whose single line is malformed fails the load — but the registry is left
empty, not with the previous snapshot: `self.entries = []` runs before any
line is parsed. -/
theorem C5_counterexample :
    (loadRun (fun _ => none) ["oops"]).2 = some "oops"
    ∧ registryAfterLoad [exA] (fun _ => none) ["oops"] = []
    ∧ registryAfterLoad [exA] (fun _ => none) ["oops"] ≠ [exA] := by
  decide

/-- C5 (amended): a successful load replaces the record list with one record
per non-blank line; a malformed line fails the load with an error identifying
the offending (stripped) line, but the previous snapshot is *not* preserved —
the registry is left holding exactly the records parsed from the non-blank
lines preceding the malformed one, the previous list having been discarded at
the start of the call. -/
theorem C5_theorem (prev : List Entry) (parse : String → Option Entry)
    (lines : List String) :
    ((loadRun parse lines).2 = none →
        registryAfterLoad prev parse lines = (nonBlankStripped lines).filterMap parse)
    ∧ (∀ s, (loadRun parse lines).2 = some s →
        ∃ pre post, nonBlankStripped lines = pre ++ s :: post
          ∧ (∀ x ∈ pre, (parse x).isSome)
          ∧ parse s = none
          ∧ registryAfterLoad prev parse lines = pre.filterMap parse) := by
  have h := loadAux_spec parse lines []
  refine ⟨fun hnone => ?_, fun s hs => ?_⟩
  · have := h.1 hnone
    simpa [registryAfterLoad, loadRun] using this
  · rcases h.2 s hs with ⟨pre, post, hsplit, hpre, hnone, hres⟩
    exact ⟨pre, post, hsplit, hpre, hnone, by simpa [registryAfterLoad, loadRun] using hres⟩

/-- C5 witness: both branches of `C5_theorem` discharged on concrete loads —
a fully successful load and a load failing on its only line. -/
theorem C5_witness :
    registryAfterLoad [exX] (fun s => some { file := s }) ["a", " ", "b"]
        = (nonBlankStripped ["a", " ", "b"]).filterMap (fun s => some { file := s })
    ∧ ∃ pre post, nonBlankStripped ["oops"] = pre ++ "oops" :: post
        ∧ (∀ x ∈ pre, ((fun _ => (none : Option Entry)) x).isSome)
        ∧ (fun _ => (none : Option Entry)) "oops" = none
        ∧ registryAfterLoad [exA] (fun _ => none) ["oops"]
            = pre.filterMap (fun _ => (none : Option Entry)) :=
  ⟨(C5_theorem [exX] (fun s => some { file := s }) ["a", " ", "b"]).1 (by decide),
   (C5_theorem [exA] (fun _ => none) ["oops"]).2 "oops" (by decide)⟩

/-! ### C8 — edge resolution with missing targets -/

/-- C8: for an existing record and any edge kind with a non-empty target list,
`get_related` resolves the targets and reports each of them — pairing every
target with its resolved title, where a target that has no record gets the
placeholder title `"(not found)"` instead of failing.  (`find_by_file` is
modelled from spec §4.3, being absent from the provided source.) -/
theorem C8_theorem (entries : List Entry) (f : String) (e : Entry) (k : String)
    (hfind : find_by_file entries f = some e)
    (hk : k ∈ edgeKinds)
    (hne : edgeGet e k ≠ []) :
    ∃ m, get_related entries f = RelatedResult.resolved m
      ∧ (k, (edgeGet e k).map (fun t => (t, resolveTitle entries t))) ∈ m
      ∧ ∀ t, find_by_file entries t = none → resolveTitle entries t = "(not found)" := by
  have hcond : ¬ (edgeKinds.all (fun k => (edgeGet e k).isEmpty) = true) := by
    intro hall
    exact hne (List.isEmpty_iff.mp (List.all_eq_true.mp hall k hk))
  refine ⟨(edgeKinds.filter (fun k => !(edgeGet e k).isEmpty)).map
      (fun k => (k, (edgeGet e k).map (fun t => (t, resolveTitle entries t)))),
    ?_, ?_, ?_⟩
  · simp only [get_related, hfind]
    rw [if_neg hcond]
  · refine List.mem_map.mpr ⟨k, List.mem_filter.mpr ⟨hk, ?_⟩, rfl⟩
    cases h : edgeGet e k with
    | nil => exact absurd h hne
    | cons a l => rfl
  · intro t ht
    simp [resolveTitle, ht]

/-- C8 witness: `C8_theorem` discharged on the spec §8 example — a record whose
`requires` edge points at `"python/naming.md"`, which has no record; the
resolved result carries the placeholder title. -/
theorem C8_witness :
    (∃ m, get_related [exTypes] "python/types.md" = RelatedResult.resolved m
      ∧ ("requires",
          (edgeGet exTypes "requires").map
            (fun t => (t, resolveTitle [exTypes] t))) ∈ m
      ∧ ∀ t, find_by_file [exTypes] t = none →
          resolveTitle [exTypes] t = "(not found)")
    ∧ get_related [exTypes] "python/types.md"
        = RelatedResult.resolved [("requires", [("python/naming.md", "(not found)")])] :=
  ⟨C8_theorem [exTypes] "python/types.md" exTypes "requires" (by decide) (by decide)
      (by decide),
   by decide⟩

/-! ### C4 — the phase argument -/

/-- C4 counterexample: with two produced layers, `learning_path(["rust"],
phase=5)` does not fail — there is no `PhaseOutOfRange` anywhere in the code;
the out-of-range guard `1 <= phase <= len(layers)` simply falls through and
returns all layers. -/
theorem C4_counterexample :
    learning_path [exR1, exR2] ["rust"] none = [[exR1], [exR2]]
    ∧ learning_path [exR1, exR2] ["rust"] (some 5) = [[exR1], [exR2]]
    ∧ (learning_path [exR1, exR2] ["rust"] (some 5)).length ≠ 1 := by
  refine ⟨?_, ?_, ?_⟩ <;> simp only [learning_path_eval] <;> decide

/-- C4 (amended): when `phase` lies in `[1, layer_count]`, `learning_path`
returns the single-element sequence containing the 1-based `phase`-th layer;
when `phase` is outside that range no error is raised — the full layer
sequence is returned unchanged. -/
theorem C4_theorem (entries : List Entry) (languages : List String) (p : Int) :
    (1 ≤ p ∧ p ≤ ((learning_path entries languages none).length : Int) →
        learning_path entries languages (some p)
          = [(learning_path entries languages none).getD (p - 1).toNat []])
    ∧ (¬ (1 ≤ p ∧ p ≤ ((learning_path entries languages none).length : Int)) →
        learning_path entries languages (some p) = learning_path entries languages none) := by
  by_cases hE : (sortedFiles entries (relevantFiles entries languages)).isEmpty
  · have hnone : learning_path entries languages none = [] := by
      simp [learning_path, learningPathWith, hE]
    have hsome : learning_path entries languages (some p) = [] := by
      simp [learning_path, learningPathWith, hE]
    rw [hnone, hsome]
    refine ⟨?_, fun _ => rfl⟩
    rintro ⟨h1, h2⟩
    simp only [List.length_nil, Nat.cast_zero] at h2
    omega
  · have hnone : learning_path entries languages none
        = finalLayersWith bucketIdx entries (relevantFiles entries languages) := by
      simp [learning_path, learningPathWith, hE]
    have hsome : learning_path entries languages (some p)
        = if 1 ≤ p ∧ p ≤ ((finalLayersWith bucketIdx entries
              (relevantFiles entries languages)).length : Int)
          then [(finalLayersWith bucketIdx entries
              (relevantFiles entries languages)).getD (p - 1).toNat []]
          else finalLayersWith bucketIdx entries (relevantFiles entries languages) := by
      simp [learning_path, learningPathWith, hE]
    rw [hnone, hsome]
    exact ⟨fun h => if_pos h, fun h => if_neg h⟩

/-- C4 witness: both branches of `C4_theorem` discharged on a concrete
two-layer registry — `phase = 2` selects the second layer, `phase = 5` returns
everything. -/
theorem C4_witness :
    learning_path [exR1, exR2] ["rust"] (some 2)
        = [(learning_path [exR1, exR2] ["rust"] none).getD ((2 : Int) - 1).toNat []]
    ∧ learning_path [exR1, exR2] ["rust"] (some 5)
        = learning_path [exR1, exR2] ["rust"] none :=
  ⟨(C4_theorem [exR1, exR2] ["rust"] 2).1
      (by simp only [learning_path_eval]; decide),
   (C4_theorem [exR1, exR2] ["rust"] 5).2
      (by simp only [learning_path_eval]; decide)⟩

/-! ### C10 — stability of the search sort

Python's `list.sort` is stable and the sort key is the score alone
(registry.py 38), so equal-score records keep their load order.  The generic
lemmas show that `insertionSort` with any "may stay before" relation `r`
preserves the relative order of the elements of any class `p` that is upward
closed under "must move before" (`¬ r x ·`). -/

theorem filter_orderedInsert_pos (r : α → α → Prop) [DecidableRel r]
    (p : α → Bool) (x : α) (hpx : p x = true)
    (hskip : ∀ y, ¬ r x y → p y = false) :
    ∀ l : List α, (List.orderedInsert r x l).filter p = x :: l.filter p := by
  intro l
  induction l with
  | nil => simp [hpx]
  | cons y l ih =>
      by_cases hr : r x y
      · simp [List.orderedInsert, hr, hpx]
      · have hy : p y = false := hskip y hr
        simp [List.orderedInsert, hr, hy, ih]

theorem filter_orderedInsert_neg (r : α → α → Prop) [DecidableRel r]
    (p : α → Bool) (x : α) (hpx : p x = false) :
    ∀ l : List α, (List.orderedInsert r x l).filter p = l.filter p := by
  intro l
  induction l with
  | nil => simp [hpx]
  | cons y l ih =>
      by_cases hr : r x y
      · simp [List.orderedInsert, hr, hpx]
      · simp [List.orderedInsert, List.filter_cons, hr, ih]

theorem filter_insertionSort (r : α → α → Prop) [DecidableRel r] (p : α → Bool)
    (h : ∀ x y, p x = true → ¬ r x y → p y = false) :
    ∀ l : List α, (List.insertionSort r l).filter p = l.filter p := by
  intro l
  induction l with
  | nil => rfl
  | cons x l ih =>
      show (List.orderedInsert r x (List.insertionSort r l)).filter p = _
      by_cases hpx : p x = true
      · rw [filter_orderedInsert_pos r p x hpx (fun y hy => h x y hpx hy) _, ih,
          List.filter_cons_of_pos hpx]
      · have hpx' : p x = false := by simpa using hpx
        rw [filter_orderedInsert_neg r p x hpx' _, ih,
          List.filter_cons_of_neg (by simp [hpx'])]

theorem filter_take_exists (p : α → Bool) :
    ∀ (l : List α) (n : Nat), ∃ m, (l.take n).filter p = (l.filter p).take m := by
  intro l
  induction l with
  | nil => intro n; exact ⟨0, by simp⟩
  | cons x l ih =>
      intro n
      cases n with
      | zero => exact ⟨0, by simp⟩
      | succ n =>
          rcases ih n with ⟨m, hm⟩
          by_cases hpx : p x = true
          · refine ⟨m + 1, ?_⟩
            simp [List.filter_cons, hpx, hm]
          · refine ⟨m, ?_⟩
            have hpx' : p x = false := by simpa using hpx
            simp [List.filter_cons, hpx', hm]

theorem pySliceTo_eq_take (l : List α) (stop : Int) :
    ∃ k, pySliceTo l stop = l.take k := by
  by_cases h : 0 ≤ stop
  · exact ⟨stop.toNat, by rw [pySliceTo, if_pos h]⟩
  · exact ⟨l.length - (-stop).toNat, by rw [pySliceTo, if_neg h]⟩

/-- C10: the search sort keys only on the score and is stable, so the records
of any fixed score `s` appear in the result in exactly their Record Store load
order — the result restricted to score `s` is a prefix (`take`) of the
eligible entries (in load order) restricted to score `s`. -/
theorem C10_theorem (entries : List Entry) (q : String) (c : Option String)
    (limit : Int) (s : Nat) :
    ∃ n, (search entries q c limit).filter (fun e => scoreEntry e (pyTokens q) == s)
      = ((searchEligible entries q c).filter
          (fun e => scoreEntry e (pyTokens q) == s)).take n := by
  by_cases ht : (pyTokens q).isEmpty
  · refine ⟨0, ?_⟩
    simp [search, ht]
  · have hsearch : search entries q c limit
        = pySliceTo (List.insertionSort (scoreGeRel (pyTokens q))
            (searchEligible entries q c)) limit := by
      simp [search, ht]
    rcases pySliceTo_eq_take (List.insertionSort (scoreGeRel (pyTokens q))
        (searchEligible entries q c)) limit with ⟨k, hk⟩
    have hstab : (List.insertionSort (scoreGeRel (pyTokens q))
          (searchEligible entries q c)).filter
            (fun e => scoreEntry e (pyTokens q) == s)
        = (searchEligible entries q c).filter
            (fun e => scoreEntry e (pyTokens q) == s) := by
      apply filter_insertionSort
      intro x y hx hr
      rw [scoreGeRel] at hr
      have hx' : scoreEntry x (pyTokens q) = s := by simpa using hx
      have hne : scoreEntry y (pyTokens q) ≠ s := by
        have := not_le.mp hr
        omega
      simpa using hne
    rcases filter_take_exists (fun e => scoreEntry e (pyTokens q) == s)
        (List.insertionSort (scoreGeRel (pyTokens q)) (searchEligible entries q c))
        k with ⟨m, hm⟩
    refine ⟨m, ?_⟩
    rw [hsearch, hk, hm, hstab]

/-! ### C9 — determinism of learning_path under the set iteration order -/

theorem permIsEmpty {l₁ l₂ : List α} (h : l₁.Perm l₂) : l₁.isEmpty = l₂.isEmpty := by
  cases l₁ with
  | nil =>
      cases l₂ with
      | nil => rfl
      | cons b t => simpa using h.length_eq
  | cons a t =>
      cases l₂ with
      | nil => simpa using h.length_eq
      | cons b u => rfl

theorem referencedByFrom_perm (entries : List Entry) {o₁ o₂ : List String}
    (h : o₁.Perm o₂) (g : String) :
    referencedByFrom entries o₁ g = referencedByFrom entries o₂ g := by
  have hc : o₁.contains g = o₂.contains g := by
    show o₁.elem g = o₂.elem g
    by_cases hg : g ∈ o₂
    · rw [List.elem_iff.mpr hg, List.elem_iff.mpr (h.mem_iff.mpr hg)]
    · have hg₁ : ¬ g ∈ o₁ := fun hx => hg (h.mem_iff.mp hx)
      have e₁ : o₁.elem g = false := by
        cases hb : o₁.elem g with
        | false => rfl
        | true => exact absurd (List.elem_iff.mp hb) hg₁
      have e₂ : o₂.elem g = false := by
        cases hb : o₂.elem g with
        | false => rfl
        | true => exact absurd (List.elem_iff.mp hb) hg
      rw [e₁, e₂]
  have hsum : (o₁.map (fun f => refsTo entries f g)).sum
      = (o₂.map (fun f => refsTo entries f g)).sum :=
    (h.map _).sum_eq
  rw [referencedByFrom, referencedByFrom, hc, hsum]

theorem scoreFile_perm (entries : List Entry) {o₁ o₂ : List String}
    (h : o₁.Perm o₂) :
    scoreFile entries o₁ = scoreFile entries o₂ := by
  funext f
  rw [scoreFile, scoreFile]
  cases byFile entries f with
  | none => rw [referencedByFrom_perm entries h]
  | some e => rw [referencedByFrom_perm entries h]

theorem headD_score_eq (sc : String → Nat) {l₁ l₂ : List String}
    (hp : l₁.Perm l₂)
    (hs₁ : l₁.Sorted (fun a b => sc b ≤ sc a))
    (hs₂ : l₂.Sorted (fun a b => sc b ≤ sc a)) (d : String) :
    sc (l₁.headD d) = sc (l₂.headD d) := by
  cases l₁ with
  | nil =>
      cases l₂ with
      | nil => rfl
      | cons b u => simpa using hp.length_eq
  | cons a t =>
      cases l₂ with
      | nil => simpa using hp.length_eq
      | cons b u =>
          have hb : b ∈ a :: t := hp.mem_iff.mpr (List.mem_cons_self b u)
          have ha : a ∈ b :: u := hp.mem_iff.mp (List.mem_cons_self a t)
          have h1 : sc b ≤ sc a := by
            rcases List.mem_cons.mp hb with hEq | hbt
            · rw [hEq]
            · exact List.rel_of_sorted_cons hs₁ _ hbt
          have h2 : sc a ≤ sc b := by
            rcases List.mem_cons.mp ha with hEq | hat
            · rw [hEq]
            · exact List.rel_of_sorted_cons hs₂ _ hat
          exact le_antisymm h2 h1

theorem toList_inj {s t : String} (h : s.toList = t.toList) : s = t := by
  cases s
  cases t
  exact congrArg String.mk (by simpa [String.toList] using h)

theorem byFile_file {entries : List Entry} {f : String} {e : Entry}
    (h : byFile entries f = some e) : e.file = f := by
  have := List.find?_some h
  simpa using this

theorem filterMap_key_sublist (F : String → Option Entry)
    (hF : ∀ f e, F f = some e → e.file = f) :
    ∀ l : List String, ((l.filterMap F).map (fun e => e.file)).Sublist l := by
  intro l
  induction l with
  | nil => simp
  | cons f l ih =>
      cases hf : F f with
      | none =>
          rw [List.filterMap_cons_none hf]
          exact ih.cons f
      | some e =>
          rw [List.filterMap_cons_some hf, List.map_cons, hF f e hf]
          exact ih.cons₂ f

theorem sortLayer_eq_of_perm {l₁ l₂ : List Entry} (h : l₁.Perm l₂)
    (hnd : (l₁.map (fun e => e.file)).Nodup) :
    sortLayer l₁ = sortLayer l₂ := by
  have hp : (sortLayer l₁).Perm (sortLayer l₂) :=
    ((List.perm_insertionSort _ _).trans h).trans (List.perm_insertionSort _ _).symm
  have hnd₁ : ((sortLayer l₁).map (fun e => e.file)).Nodup :=
    (((List.perm_insertionSort fileLeRel l₁).map _).nodup_iff).mpr hnd
  have hnd₂ : ((sortLayer l₂).map (fun e => e.file)).Nodup :=
    ((hp.map _).nodup_iff).mp hnd₁
  have hstrict : ∀ {l : List Entry}, l.Sorted fileLeRel →
      (l.map (fun e => e.file)).Nodup →
      l.Pairwise (fun a b => a.file.toList < b.file.toList) := by
    intro l hs hn
    have hne : l.Pairwise (fun a b => a.file ≠ b.file) := List.pairwise_map.mp hn
    refine (hs.and hne).imp ?_
    rintro a b ⟨hle, hne'⟩
    exact lt_of_le_of_ne hle (fun hEq => hne' (toList_inj hEq))
  haveI : IsAntisymm Entry (fun a b => a.file.toList < b.file.toList) :=
    ⟨fun _ _ h1 h2 => (lt_asymm h1 h2).elim⟩
  exact List.eq_of_perm_of_sorted hp
    (hstrict (List.sorted_insertionSort _ _) hnd₁)
    (hstrict (List.sorted_insertionSort _ _) hnd₂)

theorem filtermap_sortLayer_congr :
    ∀ {L₁ L₂ : List (List Entry)},
      List.Forall₂ (fun a b => a.isEmpty = b.isEmpty ∧ sortLayer a = sortLayer b) L₁ L₂ →
      (L₁.filter (fun l => !l.isEmpty)).map sortLayer
        = (L₂.filter (fun l => !l.isEmpty)).map sortLayer := by
  intro L₁ L₂ h
  induction h with
  | nil => rfl
  | cons hab hrest ih =>
      rcases hab with ⟨he, hs⟩
      rename_i a b L₁ L₂
      cases hbe : b.isEmpty with
      | false =>
          rw [List.filter_cons_of_pos (by rw [he, hbe]; rfl),
            List.filter_cons_of_pos (by rw [hbe]; rfl), List.map_cons, List.map_cons,
            ih, hs]
      | true =>
          rw [List.filter_cons_of_neg (by rw [he, hbe]; simp),
            List.filter_cons_of_neg (by rw [hbe]; simp), ih]

theorem rawLayersWith_apply (bucket : Nat → Nat → Nat) (entries : List Entry)
    (order : List String) :
    rawLayersWith bucket entries order
      = [0, 1, 2, 3].map (fun j =>
          (sortedFiles entries order).filterMap (fun f =>
            match byFile entries f with
            | none => none
            | some e =>
                if bucket (scoreFile entries order f)
                    (scoreFile entries order ((sortedFiles entries order).headD "")) = j
                  then some e else none)) := rfl

theorem learningPathWith_perm (bucket : Nat → Nat → Nat) (entries : List Entry)
    {o₁ o₂ : List String} (h : o₁.Perm o₂) (hnd : o₂.Nodup) (phase : Option Int) :
    learningPathWith bucket entries o₁ phase
      = learningPathWith bucket entries o₂ phase := by
  have hscore : scoreFile entries o₁ = scoreFile entries o₂ := scoreFile_perm entries h
  have hsfp : (sortedFiles entries o₁).Perm (sortedFiles entries o₂) :=
    ((List.perm_insertionSort _ _).trans h).trans (List.perm_insertionSort _ _).symm
  have hs₂0 : (sortedFiles entries o₂).Sorted (scoreFileGeRel entries o₂) :=
    List.sorted_insertionSort _ _
  have hs₂ : (sortedFiles entries o₂).Sorted
      (fun a b => scoreFile entries o₂ b ≤ scoreFile entries o₂ a) := hs₂0
  have hs₁ : (sortedFiles entries o₁).Sorted
      (fun a b => scoreFile entries o₂ b ≤ scoreFile entries o₂ a) := by
    refine (List.sorted_insertionSort (scoreFileGeRel entries o₁) o₁).imp ?_
    intro a b hab
    rw [← hscore]
    exact hab
  have hmax : scoreFile entries o₂ ((sortedFiles entries o₁).headD "")
      = scoreFile entries o₂ ((sortedFiles entries o₂).headD "") :=
    headD_score_eq (scoreFile entries o₂) hsfp hs₁ hs₂ ""
  have hF : ∀ j : Nat,
      (fun f => match byFile entries f with
        | none => none
        | some e =>
            if bucket (scoreFile entries o₁ f)
                (scoreFile entries o₁ ((sortedFiles entries o₁).headD "")) = j
              then some e else none)
      = (fun f => match byFile entries f with
        | none => none
        | some e =>
            if bucket (scoreFile entries o₂ f)
                (scoreFile entries o₂ ((sortedFiles entries o₂).headD "")) = j
              then some e else none) := by
    intro j
    funext f
    rw [hscore, hmax]
  have houter :
      (fun j => (sortedFiles entries o₁).filterMap (fun f =>
        match byFile entries f with
        | none => none
        | some e =>
            if bucket (scoreFile entries o₁ f)
                (scoreFile entries o₁ ((sortedFiles entries o₁).headD "")) = j
              then some e else none))
      = (fun j => (sortedFiles entries o₁).filterMap (fun f =>
        match byFile entries f with
        | none => none
        | some e =>
            if bucket (scoreFile entries o₂ f)
                (scoreFile entries o₂ ((sortedFiles entries o₂).headD "")) = j
              then some e else none)) :=
    funext (fun j =>
      congrArg (fun g => List.filterMap g (sortedFiles entries o₁)) (hF j))
  have hFprop : ∀ (j : Nat) (f : String) (e : Entry),
      (match byFile entries f with
        | none => none
        | some e' =>
            if bucket (scoreFile entries o₂ f)
                (scoreFile entries o₂ ((sortedFiles entries o₂).headD "")) = j
              then some e' else none) = some e → e.file = f := by
    intro j f e hfe
    cases hbf : byFile entries f with
    | none => simp [hbf] at hfe
    | some e' =>
        simp only [hbf, Option.ite_none_right_eq_some, Option.some.injEq] at hfe
        rcases hfe with ⟨_, hfe1⟩
        exact hfe1 ▸ byFile_file hbf
  have hnd_sf₁ : (sortedFiles entries o₁).Nodup :=
    (((List.perm_insertionSort _ _).trans h).nodup_iff).mpr hnd
  have hperm_j : ∀ j : Nat,
      ((sortedFiles entries o₁).filterMap (fun f =>
        match byFile entries f with
        | none => none
        | some e =>
            if bucket (scoreFile entries o₂ f)
                (scoreFile entries o₂ ((sortedFiles entries o₂).headD "")) = j
              then some e else none)).Perm
      ((sortedFiles entries o₂).filterMap (fun f =>
        match byFile entries f with
        | none => none
        | some e =>
            if bucket (scoreFile entries o₂ f)
                (scoreFile entries o₂ ((sortedFiles entries o₂).headD "")) = j
              then some e else none)) :=
    fun _ => hsfp.filterMap _
  have hsort_j : ∀ j : Nat,
      sortLayer ((sortedFiles entries o₁).filterMap (fun f =>
        match byFile entries f with
        | none => none
        | some e =>
            if bucket (scoreFile entries o₂ f)
                (scoreFile entries o₂ ((sortedFiles entries o₂).headD "")) = j
              then some e else none))
      = sortLayer ((sortedFiles entries o₂).filterMap (fun f =>
        match byFile entries f with
        | none => none
        | some e =>
            if bucket (scoreFile entries o₂ f)
                (scoreFile entries o₂ ((sortedFiles entries o₂).headD "")) = j
              then some e else none)) := by
    intro j
    refine sortLayer_eq_of_perm (hperm_j j) ?_
    exact (filterMap_key_sublist _ (hFprop j) (sortedFiles entries o₁)).nodup hnd_sf₁
  have hempty_j : ∀ j : Nat,
      ((sortedFiles entries o₁).filterMap (fun f =>
        match byFile entries f with
        | none => none
        | some e =>
            if bucket (scoreFile entries o₂ f)
                (scoreFile entries o₂ ((sortedFiles entries o₂).headD "")) = j
              then some e else none)).isEmpty
      = ((sortedFiles entries o₂).filterMap (fun f =>
        match byFile entries f with
        | none => none
        | some e =>
            if bucket (scoreFile entries o₂ f)
                (scoreFile entries o₂ ((sortedFiles entries o₂).headD "")) = j
              then some e else none)).isEmpty :=
    fun j => permIsEmpty (hperm_j j)
  have hfinal : finalLayersWith bucket entries o₁ = finalLayersWith bucket entries o₂ := by
    rw [finalLayersWith, finalLayersWith, rawLayersWith_apply, rawLayersWith_apply,
      houter]
    apply filtermap_sortLayer_congr
    simp only [List.map_cons, List.map_nil]
    exact List.Forall₂.cons ⟨hempty_j 0, hsort_j 0⟩
      (List.Forall₂.cons ⟨hempty_j 1, hsort_j 1⟩
        (List.Forall₂.cons ⟨hempty_j 2, hsort_j 2⟩
          (List.Forall₂.cons ⟨hempty_j 3, hsort_j 3⟩ List.Forall₂.nil)))
  have hempty : (sortedFiles entries o₁).isEmpty = (sortedFiles entries o₂).isEmpty :=
    permIsEmpty hsfp
  rw [learningPathWith, learningPathWith, hempty, hfinal]

/-- C9: `learning_path` is deterministic — its output does not depend on the
iteration order of the hash-based set `relevant`: any permutation `order` of
the canonical relevant-file listing produces exactly the canonical output, for
every `languages` and `phase`.  (`search` iterates only over the entry *list*
and sorts it stably, so in the embedding it is a function of the store and the
arguments by construction; the set iteration in `learning_path` is the only
possible source of nondeterminism, and this theorem discharges it.) -/
theorem C9_theorem (entries : List Entry) (languages : List String)
    (phase : Option Int) (order : List String)
    (h : order.Perm (relevantFiles entries languages)) :
    learningPathWith bucketIdx entries order phase
      = learning_path entries languages phase :=
  learningPathWith_perm bucketIdx entries h (List.nodup_dedup _) phase

/-- C9 witness: `C9_theorem` discharged on the spec §8 registry, running the
planner on the reversed iteration order. -/
theorem C9_witness :
    learningPathWith bucketIdx exPyEntries
        ["global/x.md", "python/b.md", "python/a.md"] none
      = learning_path exPyEntries ["python"] none :=
  C9_theorem exPyEntries ["python"] none
    ["global/x.md", "python/b.md", "python/a.md"] (by decide)

/-! ### C1 — the layering rule of learning_path -/

theorem sorted_getD_map_sortLayer (L : List (List Entry)) :
    ∀ i : Nat, ((L.map sortLayer).getD i []).Sorted fileLeRel := by
  induction L with
  | nil =>
      intro i
      cases i <;> exact List.sorted_nil
  | cons x L ih =>
      intro i
      cases i with
      | zero => exact List.sorted_insertionSort _ _
      | succ i => exact ih i

/-- C1 counterexample: on the spec §8 example records the code produces a
single layer `[global/x.md, python/a.md, python/b.md]`, not the two
layer-field groups the claim asserts — `learning_path` never reads the `layer`
field; all three records score 0 under the referenced-by heuristic and land in
the same bucket. -/
theorem C1_counterexample :
    learning_path exPyEntries ["python"] none = [[exX, exA, exB]]
    ∧ (learning_path exPyEntries ["python"] none).length ≠ 2 := by
  constructor <;> simp only [learning_path_eval] <;> decide

/-- C1 (amended): `learning_path` ignores the `layer` field; it scores each
selected record by `3 × (referenced-by count among selected records) +
#rules + #banned + has_examples`, sorts by score descending, buckets by the
ratio of score to the maximum score (`≥ 0.6`, `≥ 0.3`, `> 0`, else), and
drops empty buckets — yielding at most four output layers, each sorted by
`file` ascending.  On the example records all scores are 0, so a single layer
`[global/x.md, python/a.md, python/b.md]` is returned. -/
theorem C1_theorem :
    (∀ (entries : List Entry) (languages : List String) (i : Nat),
        (learning_path entries languages none).length ≤ 4
        ∧ ((learning_path entries languages none).getD i []).Sorted fileLeRel)
    ∧ learning_path exPyEntries ["python"] none = [[exX, exA, exB]] := by
  constructor
  · intro entries languages i
    constructor
    · rw [learning_path, learningPathWith]
      by_cases hE : (sortedFiles entries (relevantFiles entries languages)).isEmpty
      · rw [if_pos hE]
        simp
      · rw [if_neg hE]
        show (finalLayersWith bucketIdx entries (relevantFiles entries languages)).length ≤ 4
        rw [finalLayersWith, List.length_map]
        calc ((rawLayersWith bucketIdx entries
                (relevantFiles entries languages)).filter (fun l => !l.isEmpty)).length
            ≤ (rawLayersWith bucketIdx entries
                (relevantFiles entries languages)).length := List.length_filter_le _ _
          _ = 4 := by rw [rawLayersWith_apply, List.length_map]; rfl
    · rw [learning_path, learningPathWith]
      by_cases hE : (sortedFiles entries (relevantFiles entries languages)).isEmpty
      · rw [if_pos hE]
        show ((List.map sortLayer []).getD i []).Sorted fileLeRel
        exact sorted_getD_map_sortLayer [] i
      · rw [if_neg hE]
        show ((finalLayersWith bucketIdx entries
            (relevantFiles entries languages)).getD i []).Sorted fileLeRel
        rw [finalLayersWith]
        exact sorted_getD_map_sortLayer _ i
  · simp only [learning_path_eval]
    decide
